import Mathlib

/-!
Verification of the query-to-structured-answer pipeline of `lite_tavily.py`
(the `tavily-streamlit` repository).

Shallow embedding conventions:

* Python strings are modelled as `List Char` (`Str`).  `str.lower` is
  modelled character-wise by `Char.toLower` (they agree on ASCII, which is
  all the pipeline's fixed keywords use).
* Python `dict` values coming from, or handed to, the JSON layer are
  modelled by the inductive type `PyJ`.  A Python `dict` is a key/value
  list; lookup takes the first matching key (Python dicts have unique
  keys).  Python `None` nested inside a structure is `PyJ.noneV`.
* `json.loads` is an external standard-library function, not repository
  code, so it is modelled as an oracle parameter
  `loads : Str → Option PyJ` of the extractor.  `Option.none` stands for
  the cases in which `_safe_json_loads` produces Python `None`: a raised
  `json` decode error, or the valid JSON document `null` (Python's
  `json.loads("null")` returns `None`).  `jsonLoadsSample` below is a
  concrete instantiation recording the behaviour of `json.loads` on the
  finitely many documents used in concrete witnesses.
* A raised Python exception is `Except.error ()`; a normal return is
  `Except.ok`.
-/

set_option maxHeartbeats 1000000

abbrev Str := List Char

def toL (s : String) : Str := s.toList

/-- Python-side JSON-like values (`Any` in the source's type hints). -/
inductive PyJ : Type where
  | obj : List (Str × PyJ) → PyJ
  | arr : List PyJ → PyJ
  | str : Str → PyJ
  | num : Int → PyJ
  | boolV : Bool → PyJ
  | noneV : PyJ

/-- Python truthiness (`bool(v)`) for the values of `PyJ`. -/
def pyTruthy : PyJ → Bool
  | .obj kvs => !kvs.isEmpty
  | .arr xs => !xs.isEmpty
  | .str s => !s.isEmpty
  | .num n => n != 0
  | .boolV b => b
  | .noneV => false

/-- Python `d.get(k)` with default `None` is `(dictGet kvs k).getD .noneV`;
`d.get(k, default)` is `(dictGet kvs k).getD default`.  First matching key
wins (Python dicts have unique keys). -/
def dictGet : List (Str × PyJ) → Str → Option PyJ
  | [], _ => Option.none
  | (k', v) :: rest, k => if k' = k then Option.some v else dictGet rest k

/-- Python `d[k] = v`: overwrite in place if the key is present (keeping its
position; Python dict keys are unique, so overwriting the first match is
exact), otherwise append the new binding at the end. -/
def dictSet : List (Str × PyJ) → Str → PyJ → List (Str × PyJ)
  | [], k, v => [(k, v)]
  | (k', v') :: rest, k, v =>
      if k' = k then (k, v) :: rest else (k', v') :: dictSet rest k v

/-- Python whitespace, as stripped by `str.strip` and matched by `\s`
(ASCII part; the pipeline's fixed texts are ASCII). -/
def pySpace (c : Char) : Bool :=
  c = ' ' || c = '\t' || c = '\n' || c = '\r' || c = '\x0b' || c = '\x0c'

def allSpaceB (w : Str) : Bool := w.all pySpace

/-- Left part of Python `str.strip`. -/
def stripL (s : Str) : Str := s.dropWhile pySpace

/-- Right part of Python `str.strip`. -/
def stripR (s : Str) : Str := (s.reverse.dropWhile pySpace).reverse

/-- Python `s.strip()`. -/
def pyStrip (s : Str) : Str := stripR (stripL s)

/-- The first character, if any, is not whitespace. -/
def headNotSpace (s : Str) : Bool :=
  match s with
  | [] => true
  | c :: _ => !pySpace c

/-- The last character, if any, is not whitespace. -/
def lastNotSpace (s : Str) : Bool := headNotSpace s.reverse

/-- Case-insensitive literal prefix match: `chopCI pat s` removes a leading
match of `pat` from `s` (comparing characters through `Char.toLower`, as
`re` with `IGNORECASE` does) and returns the remainder, or `none` when `s`
does not start with `pat`. -/
def chopCI : Str → Str → Option Str
  | [], s => Option.some s
  | _ :: _, [] => Option.none
  | p :: ps, c :: cs =>
      if Char.toLower c = Char.toLower p then chopCI ps cs else Option.none

/-- One `re.sub(r"^<pat>\s*", "", t, flags=re.IGNORECASE)` step of
`_strip_code_fences`: if `t` starts with the literal `pat`
(case-insensitively), remove it together with the following whitespace run
(the greedy `\s*`); otherwise leave `t` unchanged. -/
def subLeadingFence (pat t : Str) : Str :=
  match chopCI pat t with
  | Option.some r => r.dropWhile pySpace
  | Option.none => t

def startsWithB : Str → Str → Bool
  | [], _ => true
  | _ :: _, [] => false
  | p :: ps, c :: cs => if p = c then startsWithB ps cs else false

def endsWithB (p s : Str) : Bool := startsWithB p.reverse s.reverse

/-- The `re.sub(r"\s*```$", "", t)` step of `_strip_code_fences` (no
IGNORECASE on this one), applied to an already-stripped `t` (so `$` is the
end of the string): if `t` ends with three backticks, remove them together
with the greedy whitespace run before them; otherwise leave `t` unchanged. -/
def subTrailingFence (t : Str) : Str :=
  if endsWithB (toL "```") t = true then stripR (t.take (t.length - 3)) else t

/-- `_strip_code_fences` from `lite_tavily.py` (lines 40-45): strip, remove
a leading ```` ```json ```` fence (with its trailing whitespace) then a
leading ```` ``` ```` fence, remove a trailing ```` ``` ```` fence, stripping
in between. -/
def _strip_code_fences (t : Str) : Str :=
  pyStrip (subTrailingFence
    (pyStrip (subLeadingFence (toL "```")
      (pyStrip (subLeadingFence (toL "```json")
        (pyStrip t))))))

/-- Python `pat in s` substring membership, as used by
`_build_search_query`. -/
def containsSub (pat : Str) : Str → Bool
  | [] => startsWithB pat []
  | c :: cs => startsWithB pat (c :: cs) || containsSub pat cs

/-- Character-wise model of Python `str.lower()`. -/
def lowerStr (s : Str) : Str := s.map Char.toLower

/-- `_build_search_query` from `lite_tavily.py` (lines 55-58). -/
def _build_search_query (raw : Str) : Str :=
  if containsSub (toL "tata") (lowerStr raw) = false then
    toL "Tata Motors dealer showroom " ++ raw
  else raw

/-- Response-shape handling of `tavily_search` (line 69):
`res.get("results", []) if isinstance(res, dict) else []`.  The network
call itself is external; `res` is the provider's response value. -/
def tavily_search (res : PyJ) : PyJ :=
  match res with
  | .obj kvs => (dictGet kvs (toL "results")).getD (.arr [])
  | _ => .arr []

/-- A provider search result, with the fields the pipeline reads
(spec §3 SearchResult: title/url optional strings, content string). -/
structure WebResult where
  title : Option Str
  url : Option Str
  content : Option Str
deriving DecidableEq

/-- A compacted result, as built by `groq_structured_answer` lines 74-81. -/
structure Compact where
  title : Option Str
  url : Option Str
  content : Str
deriving DecidableEq

/-- One entry of the `compact` list:
`{"title": r.get("title"), "url": r.get("url"),
  "content": (r.get("content") or "")[:1200]}`. -/
def compactOne (r : WebResult) : Compact :=
  { title := r.title, url := r.url, content := (r.content.getD []).take 1200 }

/-- A Python optional string as a `PyJ` value. -/
def optStrJ : Option Str → PyJ
  | Option.some s => PyJ.str s
  | Option.none => PyJ.noneV

/-- A compact entry as the Python dict it is in the source. -/
def compactJ (c : Compact) : PyJ :=
  .obj [(toL "title", optStrJ c.title), (toL "url", optStrJ c.url),
        (toL "content", PyJ.str c.content)]

/-- The `sources_used` list (lines 125-128):
`[{"title": s.get("title"), "url": s.get("url")} for s in compact if s.get("url")]`. -/
def sourcesUsedJ (compact : List Compact) : List PyJ :=
  (compact.filter (fun c => pyTruthy (optStrJ c.url))).map
    (fun c => PyJ.obj [(toL "title", optStrJ c.title), (toL "url", optStrJ c.url)])

/-- Spec-side predicate: a compact entry whose url is a non-empty string
(the claims' "non-empty url"). -/
def specNonEmptyUrl (c : Compact) : Bool :=
  match c.url with
  | Option.some (_ :: _) => true
  | _ => false

/-- `groq_structured_answer` from `lite_tavily.py` (lines 72-129), after the
external model call: `model_text` is `resp.choices[0].message.content or ""`
and `loads` is the `json.loads` oracle used by `_safe_json_loads`
(`Option.none` = decode error, or Python `None` for the document `null`).
On parse failure the fallback dict is returned; on a parsed dict, `mode`
and `sources_used` are assigned; item assignment on any other parsed value
raises `TypeError` (`Except.error ()`). -/
def groq_structured_answer (loads : Str → Option PyJ) (user_query : Str)
    (web_results : List WebResult) (model_text : Str) : Except Unit PyJ :=
  let compact := web_results.map compactOne
  let text := _strip_code_fences model_text
  match loads text with
  | Option.none =>
      .ok (.obj [(toL "mode", .str (toL "text_fallback")),
                 (toL "query", .str user_query),
                 (toL "response", .str text),
                 (toL "sources", .arr (compact.map compactJ))])
  | Option.some (.obj fields) =>
      .ok (.obj (dictSet (dictSet fields (toL "mode") (.str (toL "structured")))
                  (toL "sources_used") (.arr (sourcesUsedJ compact))))
  | Option.some _ => .error ()

/-- The `mode` field of a returned answer dict, if any. -/
def modeOf : PyJ → Option PyJ
  | .obj kvs => dictGet kvs (toL "mode")
  | _ => Option.none

/-- Claim-side construction: a text wrapped in ```` ```json ... ``` ````
fences. -/
def wrapJsonFence (t : Str) : Str := toL "```json\n" ++ t ++ toL "\n```"

/-- Claim-side construction: a text wrapped in plain ```` ``` ... ``` ````
fences. -/
def wrapPlainFence (t : Str) : Str := toL "```\n" ++ t ++ toL "\n```"

/-- Concrete record of Python `json.loads` on the documents used by the
concrete witnesses of this file, through the embedding of the header:
`json.loads` on `"\x7b\x7d"` gives the empty dict, on `"[]"` the empty
list, on `"\"s\""` the string `s`, and on the dealers document the
corresponding dict; every other document used in this file (`"hello"`,
`"oops"` — decode errors — and `"null"`, on which `json.loads` returns
Python `None`) makes `_safe_json_loads` produce Python `None`, i.e.
`Option.none`. -/
def jsonLoadsSample (s : Str) : Option PyJ :=
  if s = toL "\x7b\x7d" then Option.some (PyJ.obj [])
  else if s = toL "[]" then Option.some (PyJ.arr [])
  else if s = toL "\"s\"" then Option.some (PyJ.str (toL "s"))
  else if s = toL "\x7b\"dealers\": [\x7b\"confidence\": \"certain\"\x7d]\x7d" then
    Option.some (PyJ.obj [(toL "dealers",
      PyJ.arr [PyJ.obj [(toL "confidence", PyJ.str (toL "certain"))]])])
  else Option.none

/-- Two concrete provider results used by witnesses: one with a url, one
with no url. -/
def sampleResults : List WebResult :=
  [{ title := Option.some (toL "Tata Motors Wakad"),
     url := Option.some (toL "https://example.com/wakad"),
     content := Option.some (toL "Authorized Tata Motors dealer in Wakad.") },
   { title := Option.some (toL "Directory"),
     url := Option.none,
     content := Option.none }]

instance : Inhabited PyJ := ⟨.noneV⟩

/-! ### Association-list lemmas for the Python dict operations -/

/-- Setting a key then reading it back gives the written value. -/
theorem dictGet_dictSet_self (kvs : List (Str × PyJ)) (k : Str) (v : PyJ) :
    dictGet (dictSet kvs k v) k = Option.some v := by
  induction kvs with
  | nil => simp [dictSet, dictGet]
  | cons p rest ih =>
    obtain ⟨k', v'⟩ := p
    by_cases hk : k' = k
    · simp [dictSet, hk, dictGet]
    · simp [dictSet, hk, dictGet, ih]

/-- Setting one key leaves the lookup of every other key unchanged. -/
theorem dictGet_dictSet_other (kvs : List (Str × PyJ)) (k' k : Str) (v : PyJ)
    (h : k' ≠ k) : dictGet (dictSet kvs k' v) k = dictGet kvs k := by
  induction kvs with
  | nil => simp [dictSet, dictGet, if_neg h]
  | cons p rest ih =>
    obtain ⟨a, b⟩ := p
    by_cases ha : a = k'
    · subst ha
      simp [dictSet, dictGet, if_neg h]
    · by_cases hak : a = k
      · subst hak
        simp [dictSet, if_neg ha, dictGet]
      · simp [dictSet, if_neg ha, dictGet, if_neg hak, ih]

/-! ### Substring lemmas for the brand-keyword test -/

theorem startsWithB_append_self (p r : Str) : startsWithB p (p ++ r) = true := by
  induction p with
  | nil => rfl
  | cons c cs ih => simp [startsWithB, ih]

theorem startsWithB_ex {p s : Str} (h : startsWithB p s = true) : ∃ r, s = p ++ r := by
  induction p generalizing s with
  | nil => exact ⟨s, rfl⟩
  | cons c cs ih =>
    cases s with
    | nil => simp [startsWithB] at h
    | cons a as =>
      rw [startsWithB] at h
      split at h
      case isTrue hca =>
        obtain ⟨r, hr⟩ := ih h
        exact ⟨r, by rw [hr, hca]; rfl⟩
      case isFalse hca => exact absurd h (by simp)

theorem containsSub_of_startsWith {pat s : Str} (h : startsWithB pat s = true) :
    containsSub pat s = true := by
  cases s with
  | nil => exact h
  | cons c cs => simp [containsSub, h]

theorem containsSub_of_decomp (pat a b : Str) :
    containsSub pat (a ++ pat ++ b) = true := by
  induction a with
  | nil => exact containsSub_of_startsWith (by simpa using startsWithB_append_self pat b)
  | cons c cs ih => simpa [containsSub] using Or.inr ih

theorem containsSub_ex {pat s : Str} (h : containsSub pat s = true) :
    ∃ a b, s = a ++ pat ++ b := by
  induction s with
  | nil =>
    rw [containsSub] at h
    obtain ⟨r, hr⟩ := startsWithB_ex h
    exact ⟨[], r, by simpa using hr⟩
  | cons c cs ih =>
    rw [containsSub, Bool.or_eq_true] at h
    rcases h with h1 | h2
    · obtain ⟨r, hr⟩ := startsWithB_ex h1
      exact ⟨[], r, by simpa using hr⟩
    · obtain ⟨a, b, hab⟩ := ih h2
      exact ⟨c :: a, b, by simp [hab]⟩

/-- If the lowercased query contains the pattern as a substring, the query
itself contains a substring whose lowercasing is the pattern. -/
theorem lower_decomp_of_containsSub {pat raw : Str}
    (h : containsSub pat (lowerStr raw) = true) :
    ∃ a s b, raw = a ++ s ++ b ∧ lowerStr s = pat := by
  obtain ⟨x, y, hxy⟩ := containsSub_ex h
  unfold lowerStr at hxy
  rw [List.append_assoc, List.map_eq_append_iff] at hxy
  obtain ⟨a, u, hraw, hax, hu⟩ := hxy
  rw [List.map_eq_append_iff] at hu
  obtain ⟨s, b, hu2, hs, hb⟩ := hu
  exact ⟨a, s, b, by rw [hraw, hu2, List.append_assoc], hs⟩

/-! ### C5, C6, C9: the query normalizer -/

/-- C5: a raw query that contains the brand keyword "tata" in any letter
case (i.e. has a substring that lowercases to "tata") is returned unchanged
by `_build_search_query`. -/
theorem build_query_keeps_query_with_keyword (raw : Str)
    (h : ∃ a s b, raw = a ++ s ++ b ∧ lowerStr s = toL "tata") :
    _build_search_query raw = raw := by
  obtain ⟨a, s, b, hdecomp, hlow⟩ := h
  have hc : containsSub (toL "tata") (lowerStr raw) = true := by
    rw [hdecomp]
    unfold lowerStr
    simp only [List.map_append]
    rw [show List.map Char.toLower s = toL "tata" from hlow]
    exact containsSub_of_decomp (toL "tata") (List.map Char.toLower a) (List.map Char.toLower b)
  simp [_build_search_query, hc]

/-- C5 witness: a mixed-case occurrence of the keyword passes through. -/
theorem build_query_keeps_query_with_keyword_witness :
    _build_search_query (toL "Nearest TaTa dealer in Wakad Pune") =
      toL "Nearest TaTa dealer in Wakad Pune" :=
  build_query_keeps_query_with_keyword _
    ⟨toL "Nearest ", toL "TaTa", toL " dealer in Wakad Pune", by decide, by decide⟩

/-- C6: a raw query with no substring lowercasing to "tata" (including the
empty string) is rewritten to the fixed scoping phrase followed by the raw
query: the result starts with "Tata Motors dealer showroom " and ends with
the raw query verbatim. -/
theorem build_query_scopes_query_without_keyword (raw : Str)
    (h : ∀ a s b, raw = a ++ s ++ b → lowerStr s ≠ toL "tata") :
    _build_search_query raw = toL "Tata Motors dealer showroom " ++ raw ∧
    startsWithB (toL "Tata Motors dealer showroom ") (_build_search_query raw) = true ∧
    endsWithB raw (_build_search_query raw) = true := by
  have hc : containsSub (toL "tata") (lowerStr raw) = false := by
    cases hcc : containsSub (toL "tata") (lowerStr raw) with
    | false => rfl
    | true =>
      obtain ⟨a, s, b, hdecomp, hlow⟩ := lower_decomp_of_containsSub hcc
      exact absurd hlow (h a s b hdecomp)
  have heq : _build_search_query raw = toL "Tata Motors dealer showroom " ++ raw := by
    simp [_build_search_query, hc]
  refine ⟨heq, ?_, ?_⟩
  · rw [heq]; exact startsWithB_append_self _ raw
  · rw [heq]
    unfold endsWithB
    rw [List.reverse_append]
    exact startsWithB_append_self _ _

/-- A decomposition of the raw query witnessing the keyword makes the
code's lowercased substring test succeed. -/
theorem containsSub_lower_of_decomp {raw a s b : Str} (hd : raw = a ++ s ++ b)
    (hl : lowerStr s = toL "tata") :
    containsSub (toL "tata") (lowerStr raw) = true := by
  rw [hd]
  unfold lowerStr
  simp only [List.map_append]
  rw [show List.map Char.toLower s = toL "tata" from hl]
  exact containsSub_of_decomp (toL "tata") (List.map Char.toLower a)
    (List.map Char.toLower b)

/-- C6 witness: the scenario-B query lacking the keyword gets the scoping
phrase prepended and is kept verbatim as a suffix. -/
theorem build_query_scopes_query_without_keyword_witness :
    _build_search_query (toL "showroom near Andheri") =
      toL "Tata Motors dealer showroom " ++ toL "showroom near Andheri" ∧
    startsWithB (toL "Tata Motors dealer showroom ")
      (_build_search_query (toL "showroom near Andheri")) = true ∧
    endsWithB (toL "showroom near Andheri")
      (_build_search_query (toL "showroom near Andheri")) = true :=
  build_query_scopes_query_without_keyword _ (fun a s b hd hl =>
    absurd (containsSub_lower_of_decomp hd hl) (by decide))

/-- C9: the brand-keyword test is a plain substring match on the lowercased
query, with no word-boundary check: whenever the lowercased raw query
contains "tata" anywhere — also inside a longer word — the normalizer
returns the query unchanged, without the scoping phrase. -/
theorem build_query_plain_substring_test (raw : Str)
    (h : containsSub (toL "tata") (lowerStr raw) = true) :
    _build_search_query raw = raw := by
  simp [_build_search_query, h]

/-- C9 witness: "tatami mats showroom" contains "tata" only inside the word
"tatami", yet is passed through unchanged. -/
theorem build_query_plain_substring_test_witness :
    _build_search_query (toL "tatami mats showroom") = toL "tatami mats showroom" :=
  build_query_plain_substring_test _ (by decide)

/-! ### C1, C2, C3, C4, C10: the structured response extractor -/

/-- C1: whenever the parse oracle fails on the fence-stripped model text
(`_safe_json_loads` gives Python `None`: syntactically invalid JSON — or
the document `null`), the extractor returns, without raising, the fallback
dict with mode "text_fallback", the query, the fence-stripped text as
`response`, and the full compacted result list as `sources`. -/
theorem extractor_parse_failure_fallback (loads : Str → Option PyJ) (q t : Str)
    (rs : List WebResult) (h : loads (_strip_code_fences t) = Option.none) :
    groq_structured_answer loads q rs t =
      Except.ok (PyJ.obj [(toL "mode", PyJ.str (toL "text_fallback")),
        (toL "query", PyJ.str q),
        (toL "response", PyJ.str (_strip_code_fences t)),
        (toL "sources", PyJ.arr ((rs.map compactOne).map compactJ))]) := by
  simp [groq_structured_answer, h]

/-- C1 witness: the invalid document "hello" with two concrete results. -/
theorem extractor_parse_failure_fallback_witness :
    groq_structured_answer jsonLoadsSample (toL "q") sampleResults (toL "hello") =
      Except.ok (PyJ.obj [(toL "mode", PyJ.str (toL "text_fallback")),
        (toL "query", PyJ.str (toL "q")),
        (toL "response", PyJ.str (_strip_code_fences (toL "hello"))),
        (toL "sources", PyJ.arr ((sampleResults.map compactOne).map compactJ))]) :=
  extractor_parse_failure_fallback jsonLoadsSample (toL "q") (toL "hello")
    sampleResults rfl

/-- C2: whenever the parse oracle yields a JSON object, the extractor
returns that object with "mode" set to "structured" and "sources_used" set
to the title/url pairs of exactly the compacted results whose url is a
non-empty string, in the order of the compacted list. -/
theorem extractor_valid_object_structured (loads : Str → Option PyJ) (q t : Str)
    (rs : List WebResult) (fields : List (Str × PyJ))
    (h : loads (_strip_code_fences t) = Option.some (PyJ.obj fields)) :
    groq_structured_answer loads q rs t =
      Except.ok (PyJ.obj (dictSet
        (dictSet fields (toL "mode") (PyJ.str (toL "structured")))
        (toL "sources_used") (PyJ.arr (sourcesUsedJ (rs.map compactOne))))) ∧
    sourcesUsedJ (rs.map compactOne) =
      ((rs.map compactOne).filter specNonEmptyUrl).map
        (fun c => PyJ.obj [(toL "title", optStrJ c.title), (toL "url", optStrJ c.url)]) := by
  constructor
  · simp [groq_structured_answer, h]
  · unfold sourcesUsedJ
    congr 1
    refine List.filter_congr (fun c _ => ?_)
    cases hcu : c.url with
    | none => simp [optStrJ, pyTruthy, specNonEmptyUrl, hcu]
    | some u => cases u <;> simp [optStrJ, pyTruthy, specNonEmptyUrl, hcu]

/-- C2 witness: a fenced empty object with one url-bearing result and one
url-less result; only the former appears in sources_used. -/
theorem extractor_valid_object_structured_witness :
    groq_structured_answer jsonLoadsSample (toL "q") sampleResults
        (toL "```json\n\x7b\x7d\n```") =
      Except.ok (PyJ.obj (dictSet
        (dictSet [] (toL "mode") (PyJ.str (toL "structured")))
        (toL "sources_used") (PyJ.arr (sourcesUsedJ (sampleResults.map compactOne))))) ∧
    sourcesUsedJ (sampleResults.map compactOne) =
      ((sampleResults.map compactOne).filter specNonEmptyUrl).map
        (fun c => PyJ.obj [(toL "title", optStrJ c.title), (toL "url", optStrJ c.url)]) :=
  extractor_valid_object_structured jsonLoadsSample (toL "q")
    (toL "```json\n\x7b\x7d\n```") sampleResults [] rfl

/-- C3 (amended): the extractor does not validate or normalize dealer
confidence values at all — the parsed object's "dealers" entry is returned
exactly as the model produced it; the three-value restriction lives only in
the prompt text. -/
theorem extractor_confidence_not_validated (loads : Str → Option PyJ) (q t : Str)
    (rs : List WebResult) (fields : List (Str × PyJ))
    (h : loads (_strip_code_fences t) = Option.some (PyJ.obj fields)) :
    groq_structured_answer loads q rs t =
      Except.ok (PyJ.obj (dictSet
        (dictSet fields (toL "mode") (PyJ.str (toL "structured")))
        (toL "sources_used") (PyJ.arr (sourcesUsedJ (rs.map compactOne))))) ∧
    dictGet (dictSet (dictSet fields (toL "mode") (PyJ.str (toL "structured")))
        (toL "sources_used") (PyJ.arr (sourcesUsedJ (rs.map compactOne))))
        (toL "dealers") =
      dictGet fields (toL "dealers") := by
  constructor
  · simp [groq_structured_answer, h]
  · rw [dictGet_dictSet_other _ _ _ _ (by decide),
        dictGet_dictSet_other _ _ _ _ (by decide)]

/-- C3 counterexample: a model output whose only dealer has confidence
"certain" — not one of "high"/"medium"/"low" — is returned untouched,
neither rejected nor normalized. -/
theorem extractor_confidence_counterexample :
    groq_structured_answer jsonLoadsSample (toL "find dealers") []
        (toL "\x7b\"dealers\": [\x7b\"confidence\": \"certain\"\x7d]\x7d") =
      Except.ok (PyJ.obj [(toL "dealers",
          PyJ.arr [PyJ.obj [(toL "confidence", PyJ.str (toL "certain"))]]),
        (toL "mode", PyJ.str (toL "structured")),
        (toL "sources_used", PyJ.arr [])]) ∧
    toL "certain" ≠ toL "high" ∧ toL "certain" ≠ toL "medium" ∧
    toL "certain" ≠ toL "low" :=
  ⟨rfl, by decide, by decide, by decide⟩

/-- C3 witness: the dealers entry with the out-of-enum confidence value
passes through the extractor unchanged. -/
theorem extractor_confidence_not_validated_witness :
    groq_structured_answer jsonLoadsSample (toL "find dealers") []
        (toL "\x7b\"dealers\": [\x7b\"confidence\": \"certain\"\x7d]\x7d") =
      Except.ok (PyJ.obj (dictSet
        (dictSet [(toL "dealers",
            PyJ.arr [PyJ.obj [(toL "confidence", PyJ.str (toL "certain"))]])]
          (toL "mode") (PyJ.str (toL "structured")))
        (toL "sources_used") (PyJ.arr (sourcesUsedJ [])))) ∧
    dictGet (dictSet (dictSet [(toL "dealers",
          PyJ.arr [PyJ.obj [(toL "confidence", PyJ.str (toL "certain"))]])]
        (toL "mode") (PyJ.str (toL "structured")))
        (toL "sources_used") (PyJ.arr (sourcesUsedJ []))) (toL "dealers") =
      dictGet [(toL "dealers",
          PyJ.arr [PyJ.obj [(toL "confidence", PyJ.str (toL "certain"))]])]
        (toL "dealers") :=
  extractor_confidence_not_validated jsonLoadsSample (toL "find dealers")
    (toL "\x7b\"dealers\": [\x7b\"confidence\": \"certain\"\x7d]\x7d") []
    [(toL "dealers", PyJ.arr [PyJ.obj [(toL "confidence", PyJ.str (toL "certain"))]])]
    rfl

/-- C4 (amended): when the fence-stripped model text makes the parse oracle
fail (invalid JSON or the document `null`) or parse to a JSON object, the
extractor terminates normally in one pass in exactly one of the two
terminal modes, "structured" or "text_fallback".  (On valid JSON with any
other top-level value it instead raises, see the counterexample.) -/
theorem extractor_two_terminal_states (loads : Str → Option PyJ) (q : Str)
    (rs : List WebResult) (t : Str)
    (h : loads (_strip_code_fences t) = Option.none ∨
         ∃ fields, loads (_strip_code_fences t) = Option.some (PyJ.obj fields)) :
    ∃ v, groq_structured_answer loads q rs t = Except.ok v ∧
      (modeOf v = Option.some (PyJ.str (toL "structured")) ∨
       modeOf v = Option.some (PyJ.str (toL "text_fallback"))) := by
  rcases h with h | ⟨fields, h⟩
  · refine ⟨PyJ.obj [(toL "mode", PyJ.str (toL "text_fallback")),
      (toL "query", PyJ.str q),
      (toL "response", PyJ.str (_strip_code_fences t)),
      (toL "sources", PyJ.arr ((rs.map compactOne).map compactJ))],
      by simp [groq_structured_answer, h], Or.inr ?_⟩
    simp [modeOf, dictGet]
  · refine ⟨PyJ.obj (dictSet
      (dictSet fields (toL "mode") (PyJ.str (toL "structured")))
      (toL "sources_used") (PyJ.arr (sourcesUsedJ (rs.map compactOne)))),
      by simp [groq_structured_answer, h], Or.inl ?_⟩
    show dictGet _ _ = _
    rw [dictGet_dictSet_other _ _ _ _ (by decide), dictGet_dictSet_self]

/-- C4 counterexample: on the model output "[]" — syntactically valid JSON
whose top-level value is not an object — the extractor raises (TypeError on
item assignment) instead of reaching either terminal state. -/
theorem extractor_raises_counterexample :
    groq_structured_answer jsonLoadsSample (toL "q") [] (toL "[]") =
      Except.error () := rfl

/-- C4 witness: an invalid model output reaches the fallback terminal
state. -/
theorem extractor_two_terminal_states_witness :
    ∃ v, groq_structured_answer jsonLoadsSample (toL "q") [] (toL "oops") =
        Except.ok v ∧
      (modeOf v = Option.some (PyJ.str (toL "structured")) ∨
       modeOf v = Option.some (PyJ.str (toL "text_fallback"))) :=
  extractor_two_terminal_states jsonLoadsSample (toL "q") [] (toL "oops")
    (Or.inl rfl)

/-- C10 (amended): when the fence-stripped model text parses to a value
that is not a Python dict (a JSON array, string, number or boolean), the
extractor raises a TypeError on `parsed["mode"] = ...` and returns neither
record.  (For the document `null` this does not apply: `json.loads` returns
Python `None` there, which takes the fallback path — see the
counterexample.) -/
theorem extractor_raises_on_nonobject (loads : Str → Option PyJ) (q t : Str)
    (rs : List WebResult) (v : PyJ)
    (h : loads (_strip_code_fences t) = Option.some v)
    (hv : ∀ fields, v ≠ PyJ.obj fields) :
    groq_structured_answer loads q rs t = Except.error () := by
  cases v with
  | obj fields => exact absurd rfl (hv fields)
  | arr xs => simp [groq_structured_answer, h]
  | str s => simp [groq_structured_answer, h]
  | num n => simp [groq_structured_answer, h]
  | boolV b => simp [groq_structured_answer, h]
  | noneV => simp [groq_structured_answer, h]

/-- C10 witness: the valid JSON document `"s"` (a top-level string) makes
the extractor raise. -/
theorem extractor_raises_on_nonobject_witness :
    groq_structured_answer jsonLoadsSample (toL "q") [] (toL "\"s\"") =
      Except.error () :=
  extractor_raises_on_nonobject jsonLoadsSample (toL "q") (toL "\"s\"") []
    (PyJ.str (toL "s")) rfl (fun _ hf => PyJ.noConfusion hf)

/-- C10 counterexample: the model output "null" is syntactically valid JSON
whose top-level value is not an object, yet the extractor does not raise —
it returns the fallback record, because `json.loads("null")` is Python
`None` and `parsed is None` selects the fallback path. -/
theorem extractor_null_fallback_counterexample :
    groq_structured_answer jsonLoadsSample (toL "q") [] (toL "null") =
      Except.ok (PyJ.obj [(toL "mode", PyJ.str (toL "text_fallback")),
        (toL "query", PyJ.str (toL "q")),
        (toL "response", PyJ.str (toL "null")),
        (toL "sources", PyJ.arr [])]) := rfl

/-! ### C8: provider response shape handling -/

/-- C8: any provider response that is not a dict carrying a "results" key
is degraded to the empty result list by `tavily_search`, without raising;
the extractor then simply runs with no results. -/
theorem tavily_search_bad_shape_empty (res : PyJ)
    (h : ∀ kvs, res = PyJ.obj kvs → dictGet kvs (toL "results") = Option.none) :
    tavily_search res = PyJ.arr [] := by
  cases res with
  | obj kvs => simp [tavily_search, h kvs rfl]
  | arr xs => rfl
  | str s => rfl
  | num n => rfl
  | boolV b => rfl
  | noneV => rfl

/-- C8 witness: a dict-shaped error response without a "results" key. -/
theorem tavily_search_bad_shape_empty_witness :
    tavily_search (PyJ.obj [(toL "detail", PyJ.str (toL "rate limited"))]) =
      PyJ.arr [] :=
  tavily_search_bad_shape_empty _ (fun kvs hk => by cases hk; rfl)

/-! ### Whitespace and stripping lemmas for the fence stripper -/

theorem allSpaceB_append (a b : Str) :
    allSpaceB (a ++ b) = (allSpaceB a && allSpaceB b) := by
  simp [allSpaceB, List.all_append]

theorem allSpaceB_reverse (s : Str) : allSpaceB s.reverse = allSpaceB s := by
  simp [allSpaceB, List.all_reverse]

theorem allSpaceB_takeWhile (t : Str) : allSpaceB (t.takeWhile pySpace) = true := by
  induction t with
  | nil => rfl
  | cons c cs ih =>
    rw [List.takeWhile_cons]
    split
    case isTrue hc => simp [allSpaceB, hc, ih]
    case isFalse hc => rfl

theorem dropWhile_allSpace {w : Str} (hw : allSpaceB w = true) (x : Str) :
    List.dropWhile pySpace (w ++ x) = List.dropWhile pySpace x := by
  induction w with
  | nil => rfl
  | cons c cs ih =>
    simp only [allSpaceB, List.all_cons, Bool.and_eq_true] at hw
    simpa [List.dropWhile_cons, hw.1] using ih (by simpa [allSpaceB] using hw.2)

theorem dropWhile_headNotSpace {x : Str} (h : headNotSpace x = true) :
    List.dropWhile pySpace x = x := by
  cases x with
  | nil => rfl
  | cons c m =>
    rw [headNotSpace, Bool.not_eq_true'] at h
    simp [List.dropWhile_cons, h]

theorem pySpace_of_dropWhile_cons {l r : Str} {c : Char}
    (h : List.dropWhile pySpace l = c :: r) : pySpace c = false := by
  induction l with
  | nil => simp [List.dropWhile] at h
  | cons a as ih =>
    rw [List.dropWhile_cons] at h
    split at h
    · exact ih h
    case isFalse ha =>
      cases h
      simpa using ha

theorem stripR_of_lastNotSpace {x : Str} (h : lastNotSpace x = true) :
    stripR x = x := by
  unfold stripR
  rw [dropWhile_headNotSpace h, List.reverse_reverse]

theorem pyStrip_eq_self {x : Str} (h1 : headNotSpace x = true)
    (h2 : lastNotSpace x = true) : pyStrip x = x := by
  unfold pyStrip stripL
  rw [dropWhile_headNotSpace h1, stripR_of_lastNotSpace h2]

theorem stripR_append_allSpace {w : Str} (hw : allSpaceB w = true) (x : Str) :
    stripR (x ++ w) = stripR x := by
  unfold stripR
  rw [List.reverse_append, dropWhile_allSpace (by rwa [allSpaceB_reverse])]

theorem headNotSpace_append {x : Str} (hne : x ≠ []) (z : Str) :
    headNotSpace (x ++ z) = headNotSpace x := by
  cases x with
  | nil => exact absurd rfl hne
  | cons c m => rfl

theorem lastNotSpace_concat {d : Char} (hd : pySpace d = false) (x : Str) :
    lastNotSpace (x ++ [d]) = true := by
  unfold lastNotSpace
  rw [List.reverse_append]
  simp [headNotSpace, hd]

theorem stripR_decomp (u : Str) :
    ∃ w, allSpaceB w = true ∧ u = stripR u ++ w := by
  refine ⟨(u.reverse.takeWhile pySpace).reverse, by
    rw [allSpaceB_reverse]; exact allSpaceB_takeWhile u.reverse, ?_⟩
  conv_lhs => rw [← List.reverse_reverse u,
    ← List.takeWhile_append_dropWhile pySpace u.reverse]
  rw [List.reverse_append]
  rfl

theorem pyStrip_decomp (t : Str) :
    ∃ w₁ w₂, allSpaceB w₁ = true ∧ allSpaceB w₂ = true ∧
      t = w₁ ++ (pyStrip t ++ w₂) := by
  obtain ⟨w₂, hw₂, hu⟩ := stripR_decomp (stripL t)
  refine ⟨t.takeWhile pySpace, w₂, allSpaceB_takeWhile t, hw₂, ?_⟩
  conv_lhs => rw [← List.takeWhile_append_dropWhile pySpace t]
  rw [show List.dropWhile pySpace t = stripL t from rfl, hu]
  rfl

theorem headNotSpace_stripL (u : Str) : headNotSpace (stripL u) = true := by
  cases hd : stripL u with
  | nil => rfl
  | cons c m =>
    rw [headNotSpace, Bool.not_eq_true']
    exact pySpace_of_dropWhile_cons hd

theorem lastNotSpace_stripR (u : Str) : lastNotSpace (stripR u) = true := by
  unfold lastNotSpace stripR
  rw [List.reverse_reverse]
  cases hd : List.dropWhile pySpace u.reverse with
  | nil => rfl
  | cons c m =>
    rw [headNotSpace, Bool.not_eq_true']
    exact pySpace_of_dropWhile_cons hd

theorem headNotSpace_stripR {u : Str} (h : headNotSpace u = true) :
    headNotSpace (stripR u) = true := by
  obtain ⟨w, hw, hu⟩ := stripR_decomp u
  cases hsr : stripR u with
  | nil => rfl
  | cons c rest =>
    rw [hsr] at hu
    rw [hu, headNotSpace_append (by simp) w] at h
    exact h

theorem headNotSpace_pyStrip (t : Str) : headNotSpace (pyStrip t) = true :=
  headNotSpace_stripR (headNotSpace_stripL t)

theorem lastNotSpace_pyStrip (t : Str) : lastNotSpace (pyStrip t) = true :=
  lastNotSpace_stripR (stripL t)

/-! ### Lemmas about the case-insensitive fence matcher -/

theorem chopCI_self_append (p r : Str) : chopCI p (p ++ r) = Option.some r := by
  induction p with
  | nil => rfl
  | cons c cs ih => simp [chopCI, ih]

theorem chopCI_prepend (p q r : Str) : chopCI (p ++ q) (p ++ r) = chopCI q r := by
  induction p with
  | nil => rfl
  | cons c cs ih => simp [chopCI, ih]

theorem chopCI_append_none {p : Str} (q : Str) :
    ∀ {s : Str}, chopCI p s = Option.none → chopCI (p ++ q) s = Option.none := by
  induction p with
  | nil => intro s h; simp [chopCI] at h
  | cons c cs ih =>
    intro s h
    cases s with
    | nil => rfl
    | cons a as =>
      simp only [List.cons_append, chopCI] at h ⊢
      by_cases hc : Char.toLower a = Char.toLower c
      · rw [if_pos hc] at h ⊢
        exact ih h
      · rw [if_neg hc]

theorem tick_ne_toLower_space {c : Char} (hc : pySpace c = true) :
    ('`' : Char) ≠ Char.toLower c := by
  have hcases : c = ' ' ∨ c = '\t' ∨ c = '\n' ∨ c = '\r' ∨ c = '\x0b' ∨ c = '\x0c' := by
    simpa [pySpace, or_assoc] using hc
  rcases hcases with rfl | rfl | rfl | rfl | rfl | rfl <;> decide

/-- When the pattern's characters are lowercase-stable, a failing exact
prefix test on the lowercased string refutes the case-insensitive match. -/
theorem chopCI_none_of_startsWithB {pat : Str}
    (hpat : ∀ c ∈ pat, Char.toLower c = c) :
    ∀ {s : Str}, startsWithB pat (lowerStr s) = false → chopCI pat s = Option.none := by
  induction pat with
  | nil => intro s h; simp [startsWithB] at h
  | cons p ps ih =>
    intro s h
    cases s with
    | nil => rfl
    | cons a as =>
      have hp : Char.toLower p = p := hpat p (by simp)
      simp only [lowerStr, List.map_cons, startsWithB] at h
      by_cases hc : Char.toLower a = Char.toLower p
      · have hpa : p = Char.toLower a := by rw [hc, hp]
        rw [if_pos hpa] at h
        simp only [chopCI]
        rw [if_pos hc]
        exact ih (fun c hm => hpat c (by simp [hm])) h
      · simp only [chopCI]
        rw [if_neg hc]

theorem startsWithB_tick_space {ps : Str} (w z : Str) (hw : allSpaceB w = true) :
    startsWithB ('`' :: ps) (lowerStr (w ++ '\n' :: z)) = false := by
  cases w with
  | nil =>
    simp only [List.nil_append, lowerStr, List.map_cons, startsWithB]
    rw [if_neg (by decide)]
  | cons c w' =>
    have hc : pySpace c = true := by
      simp only [allSpaceB, List.all_cons, Bool.and_eq_true] at hw
      exact hw.1
    simp only [List.cons_append, lowerStr, List.map_cons, startsWithB]
    rw [if_neg (tick_ne_toLower_space hc)]

/-- If the stripped payload does not start with three backticks
(case-insensitively), neither does the payload followed by trailing
whitespace, a newline and the closing fence. -/
theorem startsWithB_ticks_append {s : Str} (w z : Str) (hw : allSpaceB w = true)
    (hsw : startsWithB (toL "```") (lowerStr s) = false) :
    startsWithB (toL "```") (lowerStr (s ++ w ++ '\n' :: z)) = false := by
  have hticks : toL "```" = '`' :: '`' :: '`' :: ([] : Str) := rfl
  cases s with
  | nil =>
    rw [hticks]
    simpa using @startsWithB_tick_space ('`' :: '`' :: []) w z hw
  | cons a s1 =>
    cases s1 with
    | nil =>
      rw [hticks]
      simp only [List.cons_append, List.nil_append, lowerStr, List.map_cons,
        startsWithB]
      by_cases hca : ('`' : Char) = Char.toLower a
      · rw [if_pos hca]
        exact @startsWithB_tick_space ('`' :: []) w z hw
      · rw [if_neg hca]
    | cons b s2 =>
      cases s2 with
      | nil =>
        rw [hticks]
        simp only [List.cons_append, List.nil_append, lowerStr, List.map_cons,
          startsWithB]
        by_cases hca : ('`' : Char) = Char.toLower a
        · rw [if_pos hca]
          by_cases hcb : ('`' : Char) = Char.toLower b
          · rw [if_pos hcb]
            exact @startsWithB_tick_space [] w z hw
          · rw [if_neg hcb]
        · rw [if_neg hca]
      | cons c rest =>
        have e1 : lowerStr ((a :: b :: c :: rest) ++ w ++ '\n' :: z) =
            Char.toLower a :: Char.toLower b :: Char.toLower c ::
              lowerStr (rest ++ w ++ '\n' :: z) := by
          simp [lowerStr]
        have e2 : lowerStr (a :: b :: c :: rest) =
            Char.toLower a :: Char.toLower b :: Char.toLower c :: lowerStr rest := by
          simp [lowerStr]
        rw [e1, hticks]
        rw [e2, hticks] at hsw
        simp only [startsWithB] at hsw ⊢
        exact hsw

/-! ### Stage-by-stage evaluation of the fence stripper -/

theorem endsWithB_ticks_append (x : Str) :
    endsWithB (toL "```") (x ++ toL "```") = true := by
  unfold endsWithB
  rw [List.reverse_append]
  exact startsWithB_append_self _ _

theorem take_append_ticks (x : Str) :
    (x ++ toL "```").take ((x ++ toL "```").length - 3) = x := by
  rw [List.length_append, show (toL "```").length = 3 from rfl, Nat.add_sub_cancel]
  exact List.take_left x (toL "```")

theorem subTrailingFence_append_ticks (x : Str) :
    subTrailingFence (x ++ toL "```") = stripR x := by
  unfold subTrailingFence
  rw [if_pos (endsWithB_ticks_append x), take_append_ticks]

theorem pyStrip_X (s w : Str) (hne : s ≠ []) (hh : headNotSpace s = true) :
    pyStrip (s ++ w ++ '\n' :: toL "```") = s ++ w ++ '\n' :: toL "```" := by
  apply pyStrip_eq_self
  · rw [show s ++ w ++ '\n' :: toL "```" = s ++ (w ++ '\n' :: toL "```") from
      List.append_assoc s w ('\n' :: toL "```"),
      headNotSpace_append hne]
    exact hh
  · rw [show s ++ w ++ '\n' :: toL "```" =
        (s ++ w ++ ('\n' :: '`' :: '`' :: [])) ++ ['`'] from by
      rw [show toL "```" = '`' :: '`' :: '`' :: ([] : Str) from rfl]
      simp]
    exact lastNotSpace_concat (by decide) _

theorem dropWhile_to_X {t s w₁ w₂ : Str} (ht : t = w₁ ++ (s ++ w₂))
    (hw₁ : allSpaceB w₁ = true) (hne : s ≠ []) (hh : headNotSpace s = true) :
    List.dropWhile pySpace (t ++ '\n' :: toL "```") = s ++ w₂ ++ '\n' :: toL "```" := by
  rw [ht, List.append_assoc, dropWhile_allSpace hw₁]
  have hX : headNotSpace ((s ++ w₂) ++ '\n' :: toL "```") = true := by
    rw [List.append_assoc, headNotSpace_append hne]
    exact hh
  rw [dropWhile_headNotSpace hX]

theorem subTrailing_X (s w : Str) (hw : allSpaceB w = true)
    (hl : lastNotSpace s = true) :
    subTrailingFence (s ++ w ++ '\n' :: toL "```") = s := by
  rw [show s ++ w ++ '\n' :: toL "```" = (s ++ (w ++ ['\n'])) ++ toL "```" from by
    simp]
  rw [subTrailingFence_append_ticks,
      stripR_append_allSpace (by rw [allSpaceB_append, hw]; decide)]
  exact stripR_of_lastNotSpace hl

theorem subLeading_ticks_X (s w : Str) (hw : allSpaceB w = true)
    (hsw : startsWithB (toL "```") (lowerStr s) = false) :
    subLeadingFence (toL "```") (s ++ w ++ '\n' :: toL "```") =
      s ++ w ++ '\n' :: toL "```" := by
  unfold subLeadingFence
  rw [chopCI_none_of_startsWithB (by decide)
    (startsWithB_ticks_append w (toL "```") hw hsw)]

theorem strip_after_ticks_chop {s w₂ : Str} (hne : s ≠ [])
    (hh : headNotSpace s = true) (hl : lastNotSpace s = true)
    (hw₂ : allSpaceB w₂ = true) :
    pyStrip (subTrailingFence (pyStrip (s ++ w₂ ++ '\n' :: toL "```"))) = s := by
  rw [pyStrip_X s w₂ hne hh, subTrailing_X s w₂ hw₂ hl]
  exact pyStrip_eq_self hh hl

theorem strip_from_X {s w₂ : Str} (hne : s ≠ [])
    (hh : headNotSpace s = true) (hl : lastNotSpace s = true)
    (hw₂ : allSpaceB w₂ = true)
    (hsw : startsWithB (toL "```") (lowerStr s) = false) :
    pyStrip (subTrailingFence (pyStrip (subLeadingFence (toL "```")
      (pyStrip (s ++ w₂ ++ '\n' :: toL "```"))))) = s := by
  rw [pyStrip_X s w₂ hne hh, subLeading_ticks_X s w₂ hw₂ hsw]
  exact strip_after_ticks_chop hne hh hl hw₂

theorem pyStrip_wrapJson (t : Str) :
    pyStrip (wrapJsonFence t) = wrapJsonFence t := by
  apply pyStrip_eq_self
  · rfl
  · rw [show wrapJsonFence t = (toL "```json\n" ++ t ++ toL "\n``") ++ ['`'] from by
      rw [wrapJsonFence, show toL "\n```" = toL "\n``" ++ ['`'] from rfl]
      simp [List.append_assoc]]
    exact lastNotSpace_concat (by decide) _

theorem pyStrip_wrapPlain (t : Str) :
    pyStrip (wrapPlainFence t) = wrapPlainFence t := by
  apply pyStrip_eq_self
  · rfl
  · rw [show wrapPlainFence t = (toL "```\n" ++ t ++ toL "\n``") ++ ['`'] from by
      rw [wrapPlainFence, show toL "\n```" = toL "\n``" ++ ['`'] from rfl]
      simp [List.append_assoc]]
    exact lastNotSpace_concat (by decide) _

theorem subLeading_json_wrapJson (t : Str) :
    subLeadingFence (toL "```json") (wrapJsonFence t) =
      List.dropWhile pySpace (t ++ '\n' :: toL "```") := by
  unfold subLeadingFence
  rw [show wrapJsonFence t = toL "```json" ++ ('\n' :: (t ++ '\n' :: toL "```")) from
    rfl, chopCI_self_append]
  show List.dropWhile pySpace ('\n' :: (t ++ '\n' :: toL "```")) = _
  rw [List.dropWhile_cons, if_pos (by decide)]

theorem chopCI_json_newline (r : Str) :
    chopCI (toL "json") ('\n' :: r) = Option.none := by
  rw [show toL "json" = 'j' :: toL "son" from rfl]
  simp only [chopCI]
  rw [if_neg (by decide)]

theorem subLeading_json_wrapPlain (t : Str) :
    subLeadingFence (toL "```json") (wrapPlainFence t) = wrapPlainFence t := by
  unfold subLeadingFence
  rw [show toL "```json" = toL "```" ++ toL "json" from rfl,
      show wrapPlainFence t = toL "```" ++ ('\n' :: (t ++ '\n' :: toL "```")) from rfl,
      chopCI_prepend, chopCI_json_newline]

theorem subLeading_ticks_wrapPlain (t : Str) :
    subLeadingFence (toL "```") (wrapPlainFence t) =
      List.dropWhile pySpace (t ++ '\n' :: toL "```") := by
  unfold subLeadingFence
  rw [show wrapPlainFence t = toL "```" ++ ('\n' :: (t ++ '\n' :: toL "```")) from
    rfl, chopCI_self_append]
  show List.dropWhile pySpace ('\n' :: (t ++ '\n' :: toL "```")) = _
  rw [List.dropWhile_cons, if_pos (by decide)]

theorem allSpaceB_of_pyStrip_nil {t : Str} (h : pyStrip t = []) :
    allSpaceB t = true := by
  obtain ⟨w₁, w₂, hw₁, hw₂, ht⟩ := pyStrip_decomp t
  rw [h] at ht
  simp only [List.nil_append] at ht
  rw [ht, allSpaceB_append, hw₁, hw₂]
  rfl

theorem dropWhile_allSpace_tail {t : Str} (ht : allSpaceB t = true) :
    List.dropWhile pySpace (t ++ '\n' :: toL "```") = toL "```" := by
  rw [dropWhile_allSpace ht]
  decide

/-- Stripping a text whose stripped form neither starts nor ends with a
fence marker just strips it. -/
theorem strip_unwrapped_eval (t : Str)
    (hsw : startsWithB (toL "```") (lowerStr (pyStrip t)) = false)
    (hend : endsWithB (toL "```") (pyStrip t) = false) :
    _strip_code_fences t = pyStrip t := by
  unfold _strip_code_fences
  have hh := headNotSpace_pyStrip t
  have hl := lastNotSpace_pyStrip t
  have hchop : chopCI (toL "```") (pyStrip t) = Option.none :=
    chopCI_none_of_startsWithB (by decide) hsw
  have h1 : subLeadingFence (toL "```json") (pyStrip t) = pyStrip t := by
    unfold subLeadingFence
    rw [show toL "```json" = toL "```" ++ toL "json" from rfl,
        chopCI_append_none (toL "json") hchop]
  have h2 : subLeadingFence (toL "```") (pyStrip t) = pyStrip t := by
    unfold subLeadingFence
    rw [hchop]
  have h3 : subTrailingFence (pyStrip t) = pyStrip t := by
    unfold subTrailingFence
    rw [if_neg (by simp [hend])]
  rw [h1, pyStrip_eq_self hh hl, h2, pyStrip_eq_self hh hl, h3,
    pyStrip_eq_self hh hl]

/-- Stripping a ```` ```json ```` -fenced wrapping of a text recovers the
stripped text, provided the stripped text does not itself start with a
fence marker. -/
theorem strip_wrapJson_eval (t : Str)
    (hsw : startsWithB (toL "```") (lowerStr (pyStrip t)) = false) :
    _strip_code_fences (wrapJsonFence t) = pyStrip t := by
  unfold _strip_code_fences
  rw [pyStrip_wrapJson, subLeading_json_wrapJson]
  cases hnil : pyStrip t with
  | nil =>
    rw [dropWhile_allSpace_tail (allSpaceB_of_pyStrip_nil hnil)]
    decide
  | cons c m =>
    have hh := headNotSpace_pyStrip t
    have hl := lastNotSpace_pyStrip t
    obtain ⟨w₁, w₂, hw₁, hw₂, ht⟩ := pyStrip_decomp t
    rw [hnil] at ht hh hl hsw
    rw [dropWhile_to_X ht hw₁ (by simp) hh]
    exact strip_from_X (by simp) hh hl hw₂ hsw

/-- Stripping a plain ```` ``` ```` -fenced wrapping of a text recovers the
stripped text, provided the stripped text does not itself start with a
fence marker. -/
theorem strip_wrapPlain_eval (t : Str) :
    _strip_code_fences (wrapPlainFence t) = pyStrip t := by
  unfold _strip_code_fences
  rw [pyStrip_wrapPlain, subLeading_json_wrapPlain, pyStrip_wrapPlain,
    subLeading_ticks_wrapPlain]
  cases hnil : pyStrip t with
  | nil =>
    rw [dropWhile_allSpace_tail (allSpaceB_of_pyStrip_nil hnil)]
    decide
  | cons c m =>
    have hh := headNotSpace_pyStrip t
    have hl := lastNotSpace_pyStrip t
    obtain ⟨w₁, w₂, hw₁, hw₂, ht⟩ := pyStrip_decomp t
    rw [hnil] at ht hh hl
    rw [dropWhile_to_X ht hw₁ (by simp) hh]
    exact strip_after_ticks_chop (by simp) hh hl hw₂

/-- C7 (amended): for every text whose stripped form does not itself start
with a (case-insensitive) ``` fence marker and does not end with ```,
stripping the text wrapped in ```` ```json ... ``` ```` fences, or in plain
```` ``` ... ``` ```` fences, gives the same result as stripping the bare
text.  (Texts that themselves start or end with ``` are mangled
differently — see the counterexample.) -/
theorem strip_fences_wrap_invariant (t : Str)
    (hsw : startsWithB (toL "```") (lowerStr (pyStrip t)) = false)
    (hend : endsWithB (toL "```") (pyStrip t) = false) :
    _strip_code_fences (wrapJsonFence t) = _strip_code_fences t ∧
    _strip_code_fences (wrapPlainFence t) = _strip_code_fences t := by
  rw [strip_unwrapped_eval t hsw hend, strip_wrapJson_eval t hsw,
    strip_wrapPlain_eval t]
  exact ⟨rfl, rfl⟩

/-- C7 witness: a plain payload is recovered identically from both fence
wrappings. -/
theorem strip_fences_wrap_invariant_witness :
    _strip_code_fences (wrapJsonFence (toL " \x7b\"a\": 1\x7d ")) =
      _strip_code_fences (toL " \x7b\"a\": 1\x7d ") ∧
    _strip_code_fences (wrapPlainFence (toL " \x7b\"a\": 1\x7d ")) =
      _strip_code_fences (toL " \x7b\"a\": 1\x7d ") :=
  strip_fences_wrap_invariant (toL " \x7b\"a\": 1\x7d ") (by decide) (by decide)

/-- C7 counterexample: for the text "x```" the fence-stripping step does
not commute with fence wrapping — the bare text strips to "x", while both
wrapped forms strip to "x```". -/
theorem strip_fences_wrap_counterexample :
    _strip_code_fences (wrapJsonFence (toL "x```")) ≠
      _strip_code_fences (toL "x```") ∧
    _strip_code_fences (wrapPlainFence (toL "x```")) ≠
      _strip_code_fences (toL "x```") :=
  ⟨by decide, by decide⟩
